import Mathlib

/-!
Shallow embedding of `codegen/generate.go` from terraform-provider-vault.

The Go file turns one OpenAPI path item into a generated code stub and a
generated doc stub.  Go structs from the vault SDK (`framework.OASPathItem`
etc.) are modelled as Lean structures; Go `nil` pointers become `Option`;
Go maps become association lists (their iteration order is unspecified, so
every claim that depends on order is stated over all list orders); machine
I/O (os.MkdirAll, os.Create, template execution, bufio flush, file close)
is modelled by an explicit environment of possible outcomes plus a trace
of file-system events and a list of diagnostic (logger) lines.
-/

deriving instance DecidableEq for Except

/-- Subset of the vault SDK `framework.DisplayAttributes` struct.
`generate.go` only ever creates the zero value and tests the pointer for
`nil`, so two representative fields suffice. -/
structure DisplayAttributes where
  Name : String := ""
  Sensitive : Bool := false
deriving DecidableEq, Repr

/-- The vault SDK `framework.OASSchema` struct, restricted to the fields
`generate.go` reads: `Type`, `Description`, `Properties` and
`DisplayAttrs`.  `Properties` is a Go map keyed by property name with
`*OASSchema` values, modelled as an association list of optional schemas;
the struct is recursive, hence an inductive with explicit accessors. -/
inductive OASSchema : Type where
  | mk : (ty : String) → (description : String) →
      (properties : Option (List (String × Option OASSchema))) →
      (displayAttrs : Option DisplayAttributes) → OASSchema

def OASSchema.Type : OASSchema → String
  | .mk t _ _ _ => t

def OASSchema.Description : OASSchema → String
  | .mk _ d _ _ => d

def OASSchema.Properties : OASSchema → Option (List (String × Option OASSchema))
  | .mk _ _ p _ => p

def OASSchema.DisplayAttrs : OASSchema → Option DisplayAttributes
  | .mk _ _ _ a => a

/-- Models the Go assignment `schema.DisplayAttrs = ...`. -/
def OASSchema.withDisplayAttrs : OASSchema → Option DisplayAttributes → OASSchema
  | .mk t d p _, a => .mk t d p a

/-- The vault SDK `framework.OASParameter` struct (`Name`, `Description`,
`In`, `Schema`); `Schema` is a `*OASSchema` in Go, hence `Option`. -/
structure OASParameter where
  Name : String
  Description : String := ""
  In : String := ""
  Schema : Option OASSchema := none

/-- The vault SDK `framework.OASMediaTypeObject`, restricted to the one
field `generate.go` reads. -/
structure OASMediaTypeObject where
  Schema : Option OASSchema := none

/-- The vault SDK `framework.OASRequestBody`.  `Content` is a Go map keyed
by media type, modelled as an association list. -/
structure OASRequestBody where
  Description : String := ""
  Content : Option (List (String × OASMediaTypeObject)) := none

/-- The vault SDK `framework.OASOperation`, restricted to the one field
`generate.go` reads (`RequestBody`). -/
structure OASOperation where
  RequestBody : Option OASRequestBody := none

/-- The vault SDK `framework.OASPathItem`, restricted to the fields
`generate.go` reads: the top-level parameter slice and the three
operation pointers whose presence drives the capability flags. -/
structure OASPathItem where
  Parameters : List OASParameter := []
  Get : Option OASOperation := none
  Post : Option OASOperation := none
  Delete : Option OASOperation := none

/-- `supportedParamTypes` from `generate.go`: the OpenAPI field types the
generator supports ("array" is string arrays only). -/
def supportedParamTypes : List String := ["array", "boolean", "integer", "string"]

/-! String helpers.  Go's `strings` functions are modelled over the
character list of a `String`; endpoint paths and type names are ASCII, and
on ASCII these models agree with Go (UTF-8 byte order and code-point order
also coincide, so lexicographic comparison matches Go `<` on strings). -/

/-- Model of Go `strings.Split(s, sep)` for a one-character separator:
never returns an empty list; splitting the empty string yields `[[]]`. -/
def splitChars (sep : Char) : List Char → List (List Char)
  | [] => [[]]
  | c :: rest =>
    let r := splitChars sep rest
    if c = sep then [] :: r
    else
      match r with
      | [] => [[c]]
      | g :: gs => (c :: g) :: gs

/-- Go `strings.Split(path, "/")`. -/
def goSplitOnSlash (s : String) : List String :=
  (splitChars '/' s.data).map fun g => ⟨g⟩

/-- `stripCurlyBraces` from `generate.go`:
`strings.Replace(path, "{", "", -1)` then the same for `"}"`. -/
def stripCurlyBraces (path : String) : String :=
  ⟨path.data.filter fun c => !(c == '{' || c == '}')⟩

/-- The `strings.Replace(prefix, "_", "", -1)` step of `toTemplateFriendly`. -/
def removeUnderscores (s : String) : String :=
  ⟨s.data.filter fun c => !(c == '_')⟩

/-- `replaceSlashesWithDashes` from `generate.go`: trims one leading
slash (`strings.HasPrefix` / `s[1:]`) then replaces every remaining
slash with a dash. -/
def replaceSlashesWithDashes (s : String) : String :=
  let t : List Char := if s.data.head? = some '/' then s.data.tail else s.data
  ⟨t.map fun c => if c == '/' then '-' else c⟩

/-- ASCII fragment of Go `unicode`/`strings.isSeparator`, which decides
word boundaries for `strings.Title`: ASCII alphanumerics and underscore
are not separators, every other ASCII character is.  (Inputs here are
ASCII identifiers.) -/
def goIsSeparator (c : Char) : Bool :=
  !(('0' ≤ c && c ≤ '9') || ('a' ≤ c && c ≤ 'z') || ('A' ≤ c && c ≤ 'Z') || c == '_')

/-- Helper for `goToTitle`: Go's `strings.Title` maps a rune to title case
exactly when the previous rune is a separator; the initial previous rune
is a space. -/
def titleAux (prev : Char) : List Char → List Char
  | [] => []
  | c :: rest => (if goIsSeparator prev then c.toUpper else c) :: titleAux c rest

/-- ASCII model of Go `strings.Title` (`unicode.ToTitle` coincides with
`Char.toUpper` on ASCII). -/
def goToTitle (s : String) : String :=
  ⟨titleAux ' ' s.data⟩

/-- ASCII model of Go `strings.ToLower`. -/
def goToLower (s : String) : String :=
  ⟨s.data.map Char.toLower⟩

/-- Models `pathToFile[:strings.LastIndex(pathToFile, "/")]` from
`generateFile`.  Every path built by `generateCode`/`generateDoc`
contains a slash (Go would panic on the `-1` slice bound otherwise). -/
def parentDirOf (pathToFile : String) : String :=
  ⟨List.intercalate ['/'] (splitChars '/' pathToFile.data).dropLast⟩

/-- Models `parentDir[strings.LastIndex(parentDir, "/")+1:]` from
`toTemplateFriendly` (the `DirName` field): the part after the last
slash, or the whole string when there is no slash (`LastIndex` is `-1`). -/
def dirNameOf (parentDir : String) : String :=
  ⟨(splitChars '/' parentDir.data).getLastD []⟩

/-- Output path built by `generateCode`:
`stripCurlyBraces(fmt.Sprintf("%s/generated/%s%s.go", pathToHomeDir, fileType.String(), path))`.
`pathToHomeDir` (a process-wide value derived from the working directory)
and `fileType.String()` (defined outside this file's source) are taken as
parameters. -/
def generateCodePath (home ftStr path : String) : String :=
  stripCurlyBraces (home ++ "/generated/" ++ ftStr ++ path ++ ".go")

/-- Output path built by `generateDoc`:
`stripCurlyBraces(fmt.Sprintf("%s/website/docs/generated/%s/%s.md", pathToHomeDir, fileType.String(), replaceSlashesWithDashes(path)))`. -/
def generateDocPath (home ftStr path : String) : String :=
  stripCurlyBraces (home ++ "/website/docs/generated/" ++ ftStr ++ "/" ++
    replaceSlashesWithDashes path ++ ".md")

/-- The flattened documentation file name for an endpoint path, as the
spec words it: drop a leading path separator, replace the remaining
separators with dashes, strip brace markers. -/
def specFlattenedDocName (path : String) : String :=
  stripCurlyBraces (replaceSlashesWithDashes path)

/-- The naming seed computed at the top of `toTemplateFriendly`:
`pathFields := strings.Split(path, "/")`, take `pathFields[0]`, replace it
by the last field when there is more than one, strip curly braces, remove
underscores.  (`Split` never returns an empty slice, so the `headD` /
`getLastD` defaults are never used.) -/
def namingSeed (path : String) : String :=
  let pathFields := goSplitOnSlash path
  let pfx := pathFields.headD ""
  let pfx := if pathFields.length > 1 then pathFields.getLastD "" else pfx
  removeUnderscores (stripCurlyBraces pfx)

/-- The naming seed as the spec words it: the last path segment, or the
first when only one segment exists, with brace markers stripped and all
underscores removed.  Used only to compare against `namingSeed`. -/
def namingSeedSpec (path : String) : String :=
  let segs := goSplitOnSlash path
  let seed := if segs.length = 1 then segs.headD "" else segs.getLastD ""
  removeUnderscores (stripCurlyBraces seed)

/-! The parameter extractor, `appendPostParamsToTopLevel`. -/

/-- The first loop of `appendPostParamsToTopLevel`, per element.  Go
ranges over `[]OASParameter` by value, so `param` is a copy of the slice
element: the assignment `param.Schema = &framework.OASSchema{}` only
changes the copy and is lost, while
`param.Schema.DisplayAttrs = &framework.DisplayAttributes{}` writes
through a pointer shared with the slice element and does persist. -/
def normalizeParam (p : OASParameter) : OASParameter :=
  match p.Schema with
  | none => p
  | some s =>
    match s.DisplayAttrs with
    | none => { p with Schema := some (s.withDisplayAttrs (some {})) }
    | some _ => p

/-- The parameter built for one not-yet-seen body property: a nil
property schema is replaced by the zero `OASSchema` value, absent display
attributes are populated, and the parameter is assembled with the
(possibly just-populated) schema's description and `In = "post"`. -/
def postBodyParam (propertyName : String) (propSchema : Option OASSchema) : OASParameter :=
  let schema :=
    match propSchema with
    | none => OASSchema.mk "" "" none none
    | some s => s
  let schema :=
    match schema.DisplayAttrs with
    | none => schema.withDisplayAttrs (some {})
    | some _ => schema
  { Name := propertyName, Description := schema.Description,
    In := "post", Schema := some schema }

/-- The inner loop of `appendPostParamsToTopLevel` over one media type's
`Schema.Properties` map: skip names already in the `unique` set,
otherwise append `postBodyParam` and record the name.  `acc` is
`pathItem.Parameters`, `seen` the `unique` key set. -/
def addPropParams (acc : List OASParameter) (seen : List String) :
    List (String × Option OASSchema) → List OASParameter × List String
  | [] => (acc, seen)
  | (propertyName, propSchema) :: rest =>
    if propertyName ∈ seen then addPropParams acc seen rest
    else
      addPropParams (acc ++ [postBodyParam propertyName propSchema])
        (propertyName :: seen) rest

/-- The outer loop of `appendPostParamsToTopLevel` over the request
body's `Content` map: media types whose `Schema` or `Schema.Properties`
is nil are skipped. -/
def addContentParams (acc : List OASParameter) (seen : List String) :
    List (String × OASMediaTypeObject) → List OASParameter × List String
  | [] => (acc, seen)
  | (_, mto) :: rest =>
    match mto.Schema with
    | none => addContentParams acc seen rest
    | some schema =>
      match schema.Properties with
      | none => addContentParams acc seen rest
      | some props =>
        let r := addPropParams acc seen props
        addContentParams r.1 r.2 rest

/-- `appendPostParamsToTopLevel` from `generate.go`: no-op when the POST
operation, its request body, or the body's content is nil; otherwise run
the normalization/seeding loop over the current top-level parameters and
then append the not-yet-seen body properties. -/
def appendPostParamsToTopLevel (pathItem : OASPathItem) : OASPathItem :=
  match pathItem.Post with
  | none => pathItem
  | some post =>
    match post.RequestBody with
    | none => pathItem
    | some rb =>
      match rb.Content with
      | none => pathItem
      | some content =>
        let params := pathItem.Parameters.map normalizeParam
        let seen := params.map OASParameter.Name
        (fun r => { pathItem with Parameters := r.1 })
          (addContentParams params seen content)

/-! The type validator and context builder, `toTemplateFriendly`. -/

/-- Failure conditions of the pipeline.  `errUnsupported` is the
`ErrUnsupported` sentinel from `generate.go`; `nilSchemaPanic` models the
Go runtime panic raised by `param.Schema.Type` when a parameter reaches
the validation loop with a nil `Schema` pointer; `ioError` carries any
other failure (os/template errors, supplied by the environment). -/
inductive GenError : Type where
  | errUnsupported
  | nilSchemaPanic
  | ioError (msg : String)
deriving DecidableEq, Repr

/-- The `logger.Error` line emitted by the validation loop, after Go's
`fmt.Sprintf` with verbs `%q`, `%q`, `%s` (the trailing apostrophe is in
the source format string). -/
def unsupportedMsg (path ty name : String) : String :=
  "can\x27t generate \"" ++ path ++ "\" because parameter type of \"" ++ ty ++
    "\" for " ++ name ++ " is unsupported\x27"

/-- A parameter whose present schema carries a type outside
`supportedParamTypes` (the condition of the validation loop). -/
def unsupportedParam (p : OASParameter) : Bool :=
  match p.Schema with
  | none => false
  | some s => !(supportedParamTypes.contains s.Type)

/-- The validation loop of `toTemplateFriendly`: walk the (already
extracted) parameter list in order; dereferencing a nil schema panics;
the first unsupported type logs one line and returns the sentinel. -/
def validateParams (path : String) : List OASParameter → Except GenError Unit × List String
  | [] => (.ok (), [])
  | p :: rest =>
    match p.Schema with
    | none => (.error .nilSchemaPanic, [])
    | some s =>
      if supportedParamTypes.contains s.Type then validateParams path rest
      else (.error .errUnsupported, [unsupportedMsg path s.Type p.Name])

/-- Computable lexicographic "less than" on character lists.  Go compares
strings byte-lexicographically; UTF-8 byte order coincides with
code-point order, so this is the order Go's `<` induces on strings. -/
def goLtChars : List Char → List Char → Bool
  | [], [] => false
  | [], _ :: _ => true
  | _ :: _, [] => false
  | a :: as, b :: bs =>
    if a < b then true else if b < a then false else goLtChars as bs

/-- Go's `<` on strings. -/
def goStringLT (a b : String) : Bool := goLtChars a.data b.data

/-- Go's `<=` on strings (negation of the reversed strict order). -/
def goStringLE (a b : String) : Bool := !(goStringLT b a)

/-- Insert a parameter into a name-sorted list, keeping it sorted. -/
def orderedInsertParam (p : OASParameter) : List OASParameter → List OASParameter
  | [] => [p]
  | q :: rest =>
    if goStringLE p.Name q.Name then p :: q :: rest
    else q :: orderedInsertParam p rest

/-- Models the `sort.Slice(pathItem.Parameters, ...)` call: the result is
a permutation of the input that is nondecreasing by `Name`.  Go's sort is
unstable, so among equal names the order is unspecified; insertion sort
picks one such permutation (under the distinct names every claim assumes,
the sorted permutation is unique, so the choice is immaterial). -/
def sortParamsByName : List OASParameter → List OASParameter
  | [] => []
  | p :: rest => orderedInsertParam p (sortParamsByName rest)

/-- The `templateFriendly` struct from `generate.go`. -/
structure templateFriendly where
  Endpoint : String
  DirName : String
  ExportedFuncPrefix : String
  PrivateFuncPrefix : String
  Parameters : List OASParameter
  SupportsRead : Bool
  SupportsWrite : Bool
  SupportsDelete : Bool

/-- `toTemplateFriendly` from `generate.go`: compute the naming seed from
the path, move POST body parameters to the top level, validate the
parameter types (returning `ErrUnsupported` and one log line on an
unsupported type), sort the parameters by name and assemble the struct.
The second component collects the `logger.Error` output. -/
def toTemplateFriendly (path parentDir : String) (pathItem : OASPathItem) :
    Except GenError templateFriendly × List String :=
  let pfx := namingSeed path
  let item := appendPostParamsToTopLevel pathItem
  match validateParams path item.Parameters with
  | (.error e, logs) => (.error e, logs)
  | (.ok _, _) =>
    (.ok { Endpoint := path
           DirName := dirNameOf parentDir
           ExportedFuncPrefix := goToTitle (goToLower pfx)
           PrivateFuncPrefix := goToLower pfx
           Parameters := sortParamsByName item.Parameters
           SupportsRead := item.Get.isSome
           SupportsWrite := item.Post.isSome
           SupportsDelete := item.Delete.isSome }, [])

/-! The renderer, `parseTemplate` / `generateFile`, with explicit
file-system effects. -/

/-- Outcomes of the external operations `generateFile` performs, plus the
template engine.  `execTemplate` stands for `tmpl.Execute` against the
(external) template body selected by the file type: it either fails or
yields the rendered text.  `parseErr` stands for `template.Parse` of that
body; `flushErr`/`closeErr` are the outcomes of the deferred
`wr.Flush()` / `f.Close()` calls. -/
structure IOEnv where
  mkdirErr : Option String
  createErr : Option String
  parseErr : Option String
  execTemplate : templateFriendly → Except String String
  flushErr : Option String
  closeErr : Option String

/-- Observable file-system effects of one `generateFile` call. -/
inductive FileEvent : Type where
  | mkdir (dir : String)
  | create (path : String)
  | write (path : String) (content : String)
deriving DecidableEq, Repr

/-- `parseTemplate` from `generate.go`: parse the template for the file
type, build the template-friendly struct, execute the template.  Returns
the text that ends up in the buffered writer, plus the log lines. -/
def parseTemplate (env : IOEnv) (path parentDir : String) (item : OASPathItem) :
    Except GenError String × List String :=
  match env.parseErr with
  | some e => (.error (.ioError e), [])
  | none =>
    match toTemplateFriendly path parentDir item with
    | (.error e, logs) => (.error e, logs)
    | (.ok ctx, logs) =>
      match env.execTemplate ctx with
      | .error e => (.error (.ioError e), logs)
      | .ok rendered => (.ok rendered, logs)

/-- The two deferred calls of `generateFile`, which run on every exit
path after `os.Create` succeeded, in reverse registration order:
`wr.Flush()` first (writing the buffer to the file unless it fails, in
which case the failure is only logged), then `f.Close()` (failure only
logged).  `buffer` is the rendered text when template execution
succeeded, `none` otherwise. -/
def runDefers (env : IOEnv) (pathToFile : String) (buffer : Option String) :
    List FileEvent × List String :=
  let flushed : List FileEvent × List String :=
    match env.flushErr with
    | some m => ([], [m])
    | none =>
      match buffer with
      | some content => ([FileEvent.write pathToFile content], [])
      | none => ([], [])
  let closeLogs :=
    match env.closeErr with
    | some m => [m]
    | none => []
  (flushed.1, flushed.2 ++ closeLogs)

/-- `generateFile` from `generate.go`: make the parent directory, create
the output file, then parse and execute the template through a buffered
writer; flush and close run deferred and their failures are only logged.
Result: the function's returned error, the file-system event trace, and
the `logger.Error` lines. -/
def generateFile (env : IOEnv) (pathToFile path : String) (item : OASPathItem) :
    Except GenError Unit × List FileEvent × List String :=
  let parentDir := parentDirOf pathToFile
  match env.mkdirErr with
  | some e => (.error (.ioError e), [], [])
  | none =>
    match env.createErr with
    | some e => (.error (.ioError e), [FileEvent.mkdir parentDir], [])
    | none =>
      let created := [FileEvent.mkdir parentDir, FileEvent.create pathToFile]
      match parseTemplate env path parentDir item with
      | (.error e, logs) =>
        let d := runDefers env pathToFile none
        (.error e, created ++ d.1, logs ++ d.2)
      | (.ok rendered, logs) =>
        let d := runDefers env pathToFile (some rendered)
        (.ok (), created ++ d.1, logs ++ d.2)

/-- All property names declared across a request body's content map
(used to reason about which names the extractor has processed). -/
def contentPropNames : List (String × OASMediaTypeObject) → List String
  | [] => []
  | (_, mto) :: rest =>
    (match mto.Schema with
     | none => []
     | some schema =>
       match schema.Properties with
       | none => []
       | some props => props.map Prod.fst) ++ contentPropNames rest

/-! Concrete schemas, endpoint descriptors, environments and contexts
used by the concrete evaluations below. -/

def strSchema : OASSchema := OASSchema.mk "string" "" none none

def objSchema : OASSchema := OASSchema.mk "object" "" none none

def paramA : OASParameter := { Name := "a", Schema := some strSchema }

def paramB : OASParameter := { Name := "b", Schema := some strSchema }

/-- An environment in which every external operation succeeds. -/
def envOk : IOEnv := ⟨none, none, none, fun _ => .ok "rendered", none, none⟩

/-- An endpoint with a single parameter of the unsupported type `"object"`. -/
def objItem : OASPathItem := { Parameters := [{ Name := "p", Schema := some objSchema }] }

/-- An endpoint whose first parameter has an absent schema and whose
second parameter has the unsupported type `"object"`. -/
def panicItem : OASPathItem :=
  { Parameters := [{ Name := "a" }, { Name := "b", Schema := some objSchema }] }

/-- An endpoint with one absent-schema top-level parameter and a POST
body declaring a fresh property `"b"`, so the extractor's merge loop runs. -/
def nilSchemaItem : OASPathItem :=
  { Parameters := [{ Name := "a" }]
    Post := some { RequestBody := some { Content := some [("application/json",
      { Schema := some (OASSchema.mk "" "" (some [("b", some strSchema)]) none) })] } } }

/-- A POST body content map declaring a property `"x"`. -/
def dupContent : List (String × OASMediaTypeObject) :=
  [("application/json",
    { Schema := some (OASSchema.mk "" ""
        (some [("x", some (OASSchema.mk "integer" "" none none))]) none) })]

def dupRB : OASRequestBody := { Content := some dupContent }

def dupPost : OASOperation := { RequestBody := some dupRB }

/-- An endpoint where parameter `"x"` exists both at the top level (schema
present, display attributes absent) and as a POST body property. -/
def dupItem : OASPathItem :=
  { Parameters := [{ Name := "x"
                     Description := "dx"
                     In := "query"
                     Schema := some (OASSchema.mk "string" "" none none) }]
    Post := some dupPost }

/-- A GET-only endpoint whose parameters arrive in the order [b, a]. -/
def getItemBA : OASPathItem := { Parameters := [paramB, paramA], Get := some {} }

/-- The same GET-only endpoint with parameters in the order [a, b]. -/
def getItemAB : OASPathItem := { Parameters := [paramA, paramB], Get := some {} }

/-- The context the pipeline produces for `getItemBA`/`getItemAB` at path
`"/x/y"` with parent directory `"m/n"`. -/
def getCtx : templateFriendly :=
  { Endpoint := "/x/y", DirName := "n", ExportedFuncPrefix := "Y", PrivateFuncPrefix := "y",
    Parameters := [paramA, paramB],
    SupportsRead := true, SupportsWrite := false, SupportsDelete := false }

/-- The context the pipeline produces for `getItemBA` at path
`"/transform/{name}"` with parent directory `"m/n"`. -/
def nameCtx : templateFriendly :=
  { Endpoint := "/transform/{name}", DirName := "n", ExportedFuncPrefix := "Name",
    PrivateFuncPrefix := "name", Parameters := [paramA, paramB],
    SupportsRead := true, SupportsWrite := false, SupportsDelete := false }

/-! Bridge between the computable Go string order and Mathlib's
lexicographic order on `String`, and correctness of the name sort. -/

theorem goLtChars_iff_lt : ∀ as bs : List Char, goLtChars as bs = true ↔ as < bs
  | [], [] => by
    simp only [goLtChars, Bool.false_eq_true, false_iff]
    intro h
    cases h
  | [], b :: bs => by
    simp only [goLtChars, true_iff]
    exact List.Lex.nil
  | a :: as, [] => by
    simp only [goLtChars, Bool.false_eq_true, false_iff]
    intro h
    cases h
  | a :: as, b :: bs => by
    rw [goLtChars]
    by_cases hab : a < b
    · simp only [if_pos hab, true_iff]
      exact List.Lex.rel hab
    · rw [if_neg hab]
      by_cases hba : b < a
      · simp only [if_pos hba, Bool.false_eq_true, false_iff]
        intro h
        cases h with
        | cons h => exact lt_irrefl a hba
        | rel h => exact hab h
      · have heq : a = b := le_antisymm (not_lt.1 hba) (not_lt.1 hab)
        subst heq
        rw [if_neg hba, goLtChars_iff_lt as bs]
        constructor
        · exact fun h => List.Lex.cons h
        · intro h
          cases h with
          | cons h => exact h
          | rel h => exact absurd h hab

theorem goStringLT_iff (a b : String) : goStringLT a b = true ↔ a < b := by
  rw [goStringLT, goLtChars_iff_lt]
  exact (String.lt_iff_toList_lt).symm

theorem goStringLE_iff (a b : String) : goStringLE a b = true ↔ a ≤ b := by
  rw [goStringLE, Bool.not_eq_true']
  constructor
  · intro h
    rw [← not_lt]
    intro hlt
    rw [(goStringLT_iff b a).2 hlt] at h
    cases h
  · intro h
    rw [← Bool.not_eq_true]
    intro htrue
    exact absurd ((goStringLT_iff b a).1 htrue) (not_lt.2 h)

theorem goStringLE_of_not (a b : String) (h : ¬ goStringLE a b = true) : b ≤ a := by
  rw [goStringLE, Bool.not_eq_true, Bool.not_eq_false'] at h
  exact le_of_lt ((goStringLT_iff b a).1 h)

theorem perm_orderedInsertParam (p : OASParameter) :
    ∀ l : List OASParameter, (orderedInsertParam p l).Perm (p :: l)
  | [] => List.Perm.refl _
  | q :: rest => by
    rw [orderedInsertParam]
    by_cases h : goStringLE p.Name q.Name = true
    · rw [if_pos h]
    · rw [if_neg h]
      exact ((perm_orderedInsertParam p rest).cons q).trans (List.Perm.swap p q rest)

theorem perm_sortParamsByName : ∀ l : List OASParameter, (sortParamsByName l).Perm l
  | [] => List.Perm.refl _
  | p :: rest => by
    rw [sortParamsByName]
    exact (perm_orderedInsertParam p _).trans ((perm_sortParamsByName rest).cons p)

theorem mem_orderedInsertParam {x p : OASParameter} {l : List OASParameter} :
    x ∈ orderedInsertParam p l ↔ x = p ∨ x ∈ l := by
  rw [(perm_orderedInsertParam p l).mem_iff, List.mem_cons]

theorem pairwise_orderedInsertParam (p : OASParameter) (l : List OASParameter)
    (h : l.Pairwise fun a b => a.Name ≤ b.Name) :
    (orderedInsertParam p l).Pairwise fun a b => a.Name ≤ b.Name := by
  induction l with
  | nil => simp [orderedInsertParam]
  | cons q rest ih =>
    rw [orderedInsertParam]
    rw [List.pairwise_cons] at h
    by_cases hpq : goStringLE p.Name q.Name = true
    · rw [if_pos hpq]
      have hpq' : p.Name ≤ q.Name := (goStringLE_iff _ _).1 hpq
      refine List.Pairwise.cons ?_ (List.Pairwise.cons h.1 h.2)
      intro x hx
      rcases List.mem_cons.1 hx with rfl | hx
      · exact hpq'
      · exact le_trans hpq' (h.1 x hx)
    · rw [if_neg hpq]
      have hqp : q.Name ≤ p.Name := goStringLE_of_not _ _ hpq
      refine List.Pairwise.cons ?_ (ih h.2)
      intro x hx
      rcases mem_orderedInsertParam.1 hx with rfl | hx
      · exact hqp
      · exact h.1 x hx

theorem pairwise_sortParamsByName :
    ∀ l : List OASParameter, (sortParamsByName l).Pairwise fun a b => a.Name ≤ b.Name
  | [] => List.Pairwise.nil
  | p :: rest => by
    rw [sortParamsByName]
    exact pairwise_orderedInsertParam p _ (pairwise_sortParamsByName rest)

theorem pairwise_and_of_pairwise {α : Type} {R S : α → α → Prop} :
    ∀ {l : List α}, l.Pairwise R → l.Pairwise S → l.Pairwise fun a b => R a b ∧ S a b
  | [], _, _ => List.Pairwise.nil
  | _ :: _, List.Pairwise.cons hR hRs, List.Pairwise.cons hS hSs =>
    List.Pairwise.cons (fun x hx => ⟨hR x hx, hS x hx⟩) (pairwise_and_of_pairwise hRs hSs)

theorem strict_sorted_sortParamsByName (l : List OASParameter)
    (hnodup : (l.map OASParameter.Name).Nodup) :
    (sortParamsByName l).Pairwise fun a b => a.Name < b.Name := by
  have hperm : ((sortParamsByName l).map OASParameter.Name).Perm (l.map OASParameter.Name) :=
    (perm_sortParamsByName l).map _
  have hnd : ((sortParamsByName l).map OASParameter.Name).Nodup := hperm.symm.nodup hnodup
  have hne : (sortParamsByName l).Pairwise fun a b => a.Name ≠ b.Name :=
    (List.pairwise_map).1 hnd
  have := pairwise_and_of_pairwise (pairwise_sortParamsByName l) hne
  exact this.imp fun h => lt_of_le_of_ne h.1 h.2

theorem sortParams_eq_of_perm (l₁ l₂ : List OASParameter) (hperm : l₁.Perm l₂)
    (hnodup : (l₁.map OASParameter.Name).Nodup) :
    sortParamsByName l₁ = sortParamsByName l₂ := by
  haveI : IsAntisymm OASParameter fun a b => a.Name < b.Name :=
    ⟨fun _ _ h h' => absurd h' (lt_asymm h)⟩
  refine List.eq_of_perm_of_sorted (r := fun a b => a.Name < b.Name) ?_ ?_ ?_
  · exact (perm_sortParamsByName l₁).trans (hperm.trans (perm_sortParamsByName l₂).symm)
  · exact strict_sorted_sortParamsByName l₁ hnodup
  · refine strict_sorted_sortParamsByName l₂ ?_
    exact (hperm.map OASParameter.Name).nodup hnodup

/-! Lemmas about the parameter extractor. -/

theorem normalizeParam_Name (p : OASParameter) : (normalizeParam p).Name = p.Name := by
  cases p with
  | mk n d i sch =>
    cases sch with
    | none => rfl
    | some s =>
      cases s with
      | mk t de pr a =>
        cases a with
        | none => rfl
        | some _ => rfl

theorem normalizeParam_idem (p : OASParameter) :
    normalizeParam (normalizeParam p) = normalizeParam p := by
  cases p with
  | mk n d i sch =>
    cases sch with
    | none => rfl
    | some s =>
      cases s with
      | mk t de pr a =>
        cases a with
        | none => rfl
        | some _ => rfl

theorem normalizeParam_postBodyParam :
    ∀ (pn : String) (ps : Option OASSchema),
      normalizeParam (postBodyParam pn ps) = postBodyParam pn ps
  | _, none => rfl
  | _, some (.mk _ _ _ none) => rfl
  | _, some (.mk _ _ _ (some _)) => rfl

theorem postBodyParam_Name (pn : String) (ps : Option OASSchema) :
    (postBodyParam pn ps).Name = pn := by
  cases ps with
  | none => rfl
  | some s =>
    cases s with
    | mk t de pr a =>
      cases a with
      | none => rfl
      | some _ => rfl

theorem postBodyParam_In (pn : String) (ps : Option OASSchema) :
    (postBodyParam pn ps).In = "post" := by
  cases ps with
  | none => rfl
  | some s =>
    cases s with
    | mk t de pr a =>
      cases a with
      | none => rfl
      | some _ => rfl

theorem addPropParams_acc_mem :
    ∀ (props : List (String × Option OASSchema)) (acc : List OASParameter)
      (seen : List String) (p : OASParameter),
      p ∈ (addPropParams acc seen props).1 → p ∈ acc ∨ normalizeParam p = p
  | [], _, _, _, h => Or.inl h
  | (pn, ps) :: rest, acc, seen, p, h => by
    rw [addPropParams] at h
    by_cases hseen : pn ∈ seen
    · rw [if_pos hseen] at h
      exact addPropParams_acc_mem rest acc seen p h
    · rw [if_neg hseen] at h
      rcases addPropParams_acc_mem rest _ _ p h with hmem | hfix
      · rcases List.mem_append.1 hmem with hacc | hnew
        · exact Or.inl hacc
        · rcases List.mem_singleton.1 hnew with rfl
          exact Or.inr (normalizeParam_postBodyParam pn ps)
      · exact Or.inr hfix

theorem addContentParams_acc_mem :
    ∀ (content : List (String × OASMediaTypeObject)) (acc : List OASParameter)
      (seen : List String) (p : OASParameter),
      p ∈ (addContentParams acc seen content).1 → p ∈ acc ∨ normalizeParam p = p
  | [], _, _, _, h => Or.inl h
  | (mt, mto) :: rest, acc, seen, p, h => by
    rw [addContentParams] at h
    cases hs : mto.Schema with
    | none =>
      simp only [hs] at h
      exact addContentParams_acc_mem rest acc seen p h
    | some schema =>
      simp only [hs] at h
      cases hp : schema.Properties with
      | none =>
        simp only [hp] at h
        exact addContentParams_acc_mem rest acc seen p h
      | some props =>
        simp only [hp] at h
        rcases addContentParams_acc_mem rest _ _ p h with hmem | hfix
        · rcases addPropParams_acc_mem props acc seen p hmem with hacc | hfix
          · exact Or.inl hacc
          · exact Or.inr hfix
        · exact Or.inr hfix

theorem addPropParams_seen_mono :
    ∀ (props : List (String × Option OASSchema)) (acc : List OASParameter)
      (seen : List String) (n : String),
      n ∈ seen → n ∈ (addPropParams acc seen props).2
  | [], _, _, _, h => h
  | (pn, ps) :: rest, acc, seen, n, h => by
    rw [addPropParams]
    by_cases hseen : pn ∈ seen
    · rw [if_pos hseen]
      exact addPropParams_seen_mono rest acc seen n h
    · rw [if_neg hseen]
      exact addPropParams_seen_mono rest _ _ n (List.mem_cons_of_mem pn h)

theorem addContentParams_seen_mono :
    ∀ (content : List (String × OASMediaTypeObject)) (acc : List OASParameter)
      (seen : List String) (n : String),
      n ∈ seen → n ∈ (addContentParams acc seen content).2
  | [], _, _, _, h => h
  | (mt, mto) :: rest, acc, seen, n, h => by
    rw [addContentParams]
    cases hs : mto.Schema with
    | none =>
      simp only
      exact addContentParams_seen_mono rest acc seen n h
    | some schema =>
      simp only
      cases hp : schema.Properties with
      | none =>
        simp only [hp]
        exact addContentParams_seen_mono rest acc seen n h
      | some props =>
        simp only [hp]
        exact addContentParams_seen_mono rest _ _ n (addPropParams_seen_mono props acc seen n h)

theorem addPropParams_prop_seen :
    ∀ (props : List (String × Option OASSchema)) (acc : List OASParameter)
      (seen : List String) (n : String),
      n ∈ props.map Prod.fst → n ∈ (addPropParams acc seen props).2
  | (pn, ps) :: rest, acc, seen, n, h => by
    rcases List.mem_cons.1 h with rfl | h
    · rw [addPropParams]
      by_cases hseen : n ∈ seen
      · rw [if_pos hseen]
        exact addPropParams_seen_mono rest acc seen n hseen
      · rw [if_neg hseen]
        exact addPropParams_seen_mono rest _ _ n (List.mem_cons_self n seen)
    · rw [addPropParams]
      by_cases hseen : pn ∈ seen
      · rw [if_pos hseen]
        exact addPropParams_prop_seen rest acc seen n h
      · rw [if_neg hseen]
        exact addPropParams_prop_seen rest _ _ n h

theorem addContentParams_prop_seen :
    ∀ (content : List (String × OASMediaTypeObject)) (acc : List OASParameter)
      (seen : List String) (n : String),
      n ∈ contentPropNames content → n ∈ (addContentParams acc seen content).2
  | (mt, mto) :: rest, acc, seen, n, h => by
    rw [contentPropNames] at h
    rw [addContentParams]
    cases hs : mto.Schema with
    | none =>
      simp only [hs] at h
      simp only at h ⊢
      exact addContentParams_prop_seen rest acc seen n (by simpa using h)
    | some schema =>
      simp only [hs] at h
      cases hp : schema.Properties with
      | none =>
        simp only [hp] at h
        simp only [hp]
        exact addContentParams_prop_seen rest acc seen n (by simpa using h)
      | some props =>
        simp only [hp] at h
        simp only [hp]
        rcases List.mem_append.1 h with hhead | htail
        · exact addContentParams_seen_mono rest _ _ n (addPropParams_prop_seen props acc seen n hhead)
        · exact addContentParams_prop_seen rest _ _ n htail

theorem addPropParams_seen_sub :
    ∀ (props : List (String × Option OASSchema)) (acc : List OASParameter)
      (seen : List String),
      (∀ n ∈ seen, n ∈ acc.map OASParameter.Name) →
      ∀ n ∈ (addPropParams acc seen props).2,
        n ∈ (addPropParams acc seen props).1.map OASParameter.Name
  | [], _, _, hsub, n, h => hsub n h
  | (pn, ps) :: rest, acc, seen, hsub, n, h => by
    rw [addPropParams] at h ⊢
    by_cases hseen : pn ∈ seen
    · rw [if_pos hseen] at h ⊢
      exact addPropParams_seen_sub rest acc seen hsub n h
    · rw [if_neg hseen] at h ⊢
      refine addPropParams_seen_sub rest _ _ ?_ n h
      intro m hm
      rcases List.mem_cons.1 hm with rfl | hm
      · rw [List.map_append]
        refine List.mem_append.2 (Or.inr ?_)
        simp [postBodyParam_Name]
      · rw [List.map_append]
        exact List.mem_append.2 (Or.inl (hsub m hm))

theorem addContentParams_seen_sub :
    ∀ (content : List (String × OASMediaTypeObject)) (acc : List OASParameter)
      (seen : List String),
      (∀ n ∈ seen, n ∈ acc.map OASParameter.Name) →
      ∀ n ∈ (addContentParams acc seen content).2,
        n ∈ (addContentParams acc seen content).1.map OASParameter.Name
  | [], _, _, hsub, n, h => hsub n h
  | (mt, mto) :: rest, acc, seen, hsub, n, h => by
    rw [addContentParams] at h ⊢
    cases hs : mto.Schema with
    | none =>
      simp only [hs] at h ⊢
      exact addContentParams_seen_sub rest acc seen hsub n h
    | some schema =>
      simp only [hs] at h ⊢
      cases hp : schema.Properties with
      | none =>
        simp only [hp] at h ⊢
        exact addContentParams_seen_sub rest acc seen hsub n h
      | some props =>
        simp only [hp] at h ⊢
        exact addContentParams_seen_sub rest _ _ (addPropParams_seen_sub props acc seen hsub) n h

theorem addPropParams_noop :
    ∀ (props : List (String × Option OASSchema)) (acc : List OASParameter)
      (seen : List String),
      (∀ n ∈ props.map Prod.fst, n ∈ seen) → addPropParams acc seen props = (acc, seen)
  | [], _, _, _ => rfl
  | (pn, ps) :: rest, acc, seen, hall => by
    rw [addPropParams, if_pos (hall pn (List.mem_cons_self _ _))]
    exact addPropParams_noop rest acc seen fun n hn => hall n (List.mem_cons_of_mem _ hn)

theorem addContentParams_noop :
    ∀ (content : List (String × OASMediaTypeObject)) (acc : List OASParameter)
      (seen : List String),
      (∀ n ∈ contentPropNames content, n ∈ seen) → addContentParams acc seen content = (acc, seen)
  | [], _, _, _ => rfl
  | (mt, mto) :: rest, acc, seen, hall => by
    rw [contentPropNames] at hall
    rw [addContentParams]
    cases hs : mto.Schema with
    | none =>
      simp only [hs] at hall
      simp only
      exact addContentParams_noop rest acc seen fun n hn => hall n (by simpa using hn)
    | some schema =>
      simp only [hs] at hall
      cases hp : schema.Properties with
      | none =>
        simp only [hp] at hall
        simp only [hp]
        exact addContentParams_noop rest acc seen fun n hn => hall n (by simpa using hn)
      | some props =>
        simp only [hp] at hall
        simp only [hp]
        rw [addPropParams_noop props acc seen fun n hn => hall n (List.mem_append.2 (Or.inl hn))]
        exact addContentParams_noop rest acc seen fun n hn => hall n (List.mem_append.2 (Or.inr hn))

/-! Lemmas about `appendPostParamsToTopLevel` as a whole and about the
validator and context builder. -/

theorem appendPost_Get :
    ∀ item : OASPathItem, (appendPostParamsToTopLevel item).Get = item.Get
  | ⟨_, _, none, _⟩ => rfl
  | ⟨_, _, some ⟨none⟩, _⟩ => rfl
  | ⟨_, _, some ⟨some ⟨_, none⟩⟩, _⟩ => rfl
  | ⟨_, _, some ⟨some ⟨_, some _⟩⟩, _⟩ => rfl

theorem appendPost_Post :
    ∀ item : OASPathItem, (appendPostParamsToTopLevel item).Post = item.Post
  | ⟨_, _, none, _⟩ => rfl
  | ⟨_, _, some ⟨none⟩, _⟩ => rfl
  | ⟨_, _, some ⟨some ⟨_, none⟩⟩, _⟩ => rfl
  | ⟨_, _, some ⟨some ⟨_, some _⟩⟩, _⟩ => rfl

theorem appendPost_Delete :
    ∀ item : OASPathItem, (appendPostParamsToTopLevel item).Delete = item.Delete
  | ⟨_, _, none, _⟩ => rfl
  | ⟨_, _, some ⟨none⟩, _⟩ => rfl
  | ⟨_, _, some ⟨some ⟨_, none⟩⟩, _⟩ => rfl
  | ⟨_, _, some ⟨some ⟨_, some _⟩⟩, _⟩ => rfl

theorem appendPost_params_content (item : OASPathItem) (post : OASOperation)
    (rb : OASRequestBody) (content : List (String × OASMediaTypeObject))
    (hpost : item.Post = some post) (hrb : post.RequestBody = some rb)
    (hc : rb.Content = some content) :
    (appendPostParamsToTopLevel item).Parameters =
      (addContentParams (item.Parameters.map normalizeParam)
        ((item.Parameters.map normalizeParam).map OASParameter.Name) content).1 := by
  obtain ⟨params, g, p, d⟩ := item
  obtain ⟨rbf⟩ := post
  obtain ⟨desc, cf⟩ := rb
  simp only at hpost hrb hc
  subst hpost
  subst hrb
  subst hc
  rfl

theorem map_normalizeParam_fix (l : List OASParameter)
    (h : ∀ p ∈ l, normalizeParam p = p) : l.map normalizeParam = l := by
  induction l with
  | nil => rfl
  | cons p rest ih =>
    rw [List.map_cons, h p (List.mem_cons_self _ _),
      ih fun q hq => h q (List.mem_cons_of_mem _ hq)]

theorem names_map_normalizeParam (l : List OASParameter) :
    (l.map normalizeParam).map OASParameter.Name = l.map OASParameter.Name := by
  rw [List.map_map]
  exact List.map_congr_left fun p _ => normalizeParam_Name p

theorem addPropParams_perm :
    ∀ (props : List (String × Option OASSchema)) (acc₁ acc₂ : List OASParameter)
      (seen₁ seen₂ : List String),
      acc₁.Perm acc₂ → (∀ n, n ∈ seen₁ ↔ n ∈ seen₂) →
      (addPropParams acc₁ seen₁ props).1.Perm (addPropParams acc₂ seen₂ props).1 ∧
        (∀ n, n ∈ (addPropParams acc₁ seen₁ props).2 ↔ n ∈ (addPropParams acc₂ seen₂ props).2)
  | [], _, _, _, _, hacc, hseen => ⟨hacc, hseen⟩
  | (pn, ps) :: rest, acc₁, acc₂, seen₁, seen₂, hacc, hseen => by
    rw [addPropParams, addPropParams]
    by_cases h1 : pn ∈ seen₁
    · rw [if_pos h1, if_pos ((hseen pn).1 h1)]
      exact addPropParams_perm rest acc₁ acc₂ seen₁ seen₂ hacc hseen
    · rw [if_neg h1, if_neg fun h2 => h1 ((hseen pn).2 h2)]
      refine addPropParams_perm rest _ _ _ _ (hacc.append_right _) ?_
      intro n
      simp only [List.mem_cons]
      exact or_congr_right (hseen n)

theorem addContentParams_perm :
    ∀ (content : List (String × OASMediaTypeObject)) (acc₁ acc₂ : List OASParameter)
      (seen₁ seen₂ : List String),
      acc₁.Perm acc₂ → (∀ n, n ∈ seen₁ ↔ n ∈ seen₂) →
      (addContentParams acc₁ seen₁ content).1.Perm (addContentParams acc₂ seen₂ content).1 ∧
        (∀ n, n ∈ (addContentParams acc₁ seen₁ content).2 ↔
          n ∈ (addContentParams acc₂ seen₂ content).2)
  | [], _, _, _, _, hacc, hseen => ⟨hacc, hseen⟩
  | (mt, ⟨none⟩) :: rest, acc₁, acc₂, seen₁, seen₂, hacc, hseen => by
    rw [addContentParams, addContentParams]
    exact addContentParams_perm rest acc₁ acc₂ seen₁ seen₂ hacc hseen
  | (mt, ⟨some schema⟩) :: rest, acc₁, acc₂, seen₁, seen₂, hacc, hseen => by
    rw [addContentParams, addContentParams]
    simp only
    cases hp : schema.Properties with
    | none =>
      exact addContentParams_perm rest acc₁ acc₂ seen₁ seen₂ hacc hseen
    | some props =>
      simp only
      have h := addPropParams_perm props acc₁ acc₂ seen₁ seen₂ hacc hseen
      exact addContentParams_perm rest _ _ _ _ h.1 h.2

theorem appendPost_params_perm :
    ∀ item₁ item₂ : OASPathItem, item₁.Post = item₂.Post →
      item₁.Parameters.Perm item₂.Parameters →
      (appendPostParamsToTopLevel item₁).Parameters.Perm
        (appendPostParamsToTopLevel item₂).Parameters := by
  intro item₁ item₂ hpost hperm
  obtain ⟨ps₁, g₁, p₁, d₁⟩ := item₁
  obtain ⟨ps₂, g₂, p₂, d₂⟩ := item₂
  simp only at hpost hperm
  subst hpost
  cases p₁ with
  | none => exact hperm
  | some post =>
    obtain ⟨rbf⟩ := post
    cases rbf with
    | none => exact hperm
    | some rb =>
      obtain ⟨desc, cf⟩ := rb
      cases cf with
      | none => exact hperm
      | some content =>
        show ((addContentParams (ps₁.map normalizeParam)
          ((ps₁.map normalizeParam).map OASParameter.Name) content).1).Perm
          (addContentParams (ps₂.map normalizeParam)
            ((ps₂.map normalizeParam).map OASParameter.Name) content).1
        refine (addContentParams_perm content _ _ _ _ (hperm.map normalizeParam) ?_).1
        intro n
        exact ((hperm.map normalizeParam).map OASParameter.Name).mem_iff

theorem addPropParams_nodup :
    ∀ (props : List (String × Option OASSchema)) (acc : List OASParameter)
      (seen : List String),
      (acc.map OASParameter.Name).Nodup →
      (∀ n ∈ acc.map OASParameter.Name, n ∈ seen) →
      ((addPropParams acc seen props).1.map OASParameter.Name).Nodup
  | [], _, _, hnd, _ => hnd
  | (pn, ps) :: rest, acc, seen, hnd, hsub => by
    rw [addPropParams]
    by_cases hseen : pn ∈ seen
    · rw [if_pos hseen]
      exact addPropParams_nodup rest acc seen hnd hsub
    · rw [if_neg hseen]
      refine addPropParams_nodup rest _ _ ?_ ?_
      · rw [List.map_append]
        refine List.nodup_append.2 ⟨hnd, ?_, ?_⟩
        · simp
        · intro m hm
          simp only [List.map_cons, postBodyParam_Name, List.map_nil, List.mem_singleton]
          rintro rfl
          exact hseen (hsub m hm)
      · intro m hm
        rw [List.map_append] at hm
        rcases List.mem_append.1 hm with hm | hm
        · exact List.mem_cons_of_mem _ (hsub m hm)
        · simp only [List.map_cons, postBodyParam_Name, List.map_nil, List.mem_singleton] at hm
          exact hm ▸ List.mem_cons_self _ _

theorem addPropParams_names_sub :
    ∀ (props : List (String × Option OASSchema)) (acc : List OASParameter)
      (seen : List String),
      (∀ n ∈ acc.map OASParameter.Name, n ∈ seen) →
      ∀ n ∈ (addPropParams acc seen props).1.map OASParameter.Name,
        n ∈ (addPropParams acc seen props).2
  | [], _, _, hsub, n, h => hsub n h
  | (pn, ps) :: rest, acc, seen, hsub, n, h => by
    rw [addPropParams] at h ⊢
    by_cases hseen : pn ∈ seen
    · rw [if_pos hseen] at h ⊢
      exact addPropParams_names_sub rest acc seen hsub n h
    · rw [if_neg hseen] at h ⊢
      refine addPropParams_names_sub rest _ _ ?_ n h
      intro m hm
      rw [List.map_append] at hm
      rcases List.mem_append.1 hm with hm | hm
      · exact List.mem_cons_of_mem _ (hsub m hm)
      · simp only [List.map_cons, postBodyParam_Name, List.map_nil, List.mem_singleton] at hm
        exact hm ▸ List.mem_cons_self _ _

theorem addContentParams_nodup :
    ∀ (content : List (String × OASMediaTypeObject)) (acc : List OASParameter)
      (seen : List String),
      (acc.map OASParameter.Name).Nodup →
      (∀ n ∈ acc.map OASParameter.Name, n ∈ seen) →
      ((addContentParams acc seen content).1.map OASParameter.Name).Nodup
  | [], _, _, hnd, _ => hnd
  | (mt, ⟨none⟩) :: rest, acc, seen, hnd, hsub => by
    rw [addContentParams]
    exact addContentParams_nodup rest acc seen hnd hsub
  | (mt, ⟨some schema⟩) :: rest, acc, seen, hnd, hsub => by
    rw [addContentParams]
    simp only
    cases hp : schema.Properties with
    | none => exact addContentParams_nodup rest acc seen hnd hsub
    | some props =>
      simp only
      refine addContentParams_nodup rest _ _ (addPropParams_nodup props acc seen hnd hsub) ?_
      exact addPropParams_names_sub props acc seen hsub

theorem appendPost_params_nodup (item : OASPathItem)
    (h : (item.Parameters.map OASParameter.Name).Nodup) :
    ((appendPostParamsToTopLevel item).Parameters.map OASParameter.Name).Nodup := by
  obtain ⟨params, g, p, d⟩ := item
  cases p with
  | none => exact h
  | some post =>
    obtain ⟨rbf⟩ := post
    cases rbf with
    | none => exact h
    | some rb =>
      obtain ⟨desc, cf⟩ := rb
      cases cf with
      | none => exact h
      | some content =>
        show ((addContentParams (params.map normalizeParam)
          ((params.map normalizeParam).map OASParameter.Name) content).1.map
            OASParameter.Name).Nodup
        refine addContentParams_nodup content _ _ ?_ fun n hn => hn
        rw [names_map_normalizeParam]
        exact h

theorem validateParams_ok_of_all :
    ∀ (path : String) (l : List OASParameter),
      (∀ p ∈ l, ∃ s, p.Schema = some s ∧ supportedParamTypes.contains s.Type = true) →
      validateParams path l = (.ok (), [])
  | _, [], _ => rfl
  | path, p :: rest, hall => by
    obtain ⟨s, hs, ht⟩ := hall p (List.mem_cons_self _ _)
    rw [validateParams, hs]
    simp only [ht, if_true]
    exact validateParams_ok_of_all path rest fun q hq => hall q (List.mem_cons_of_mem _ hq)

theorem validateParams_error_unsupported :
    ∀ (path : String) (l : List OASParameter),
      (validateParams path l).1 = .error .errUnsupported →
      ∃ p s, p ∈ l ∧ p.Schema = some s ∧ supportedParamTypes.contains s.Type = false ∧
        (validateParams path l).2 = [unsupportedMsg path s.Type p.Name]
  | path, [], h => by simp [validateParams] at h
  | path, p :: rest, h => by
    rw [validateParams] at h ⊢
    cases hs : p.Schema with
    | none =>
      simp only [hs] at h
      simp at h
    | some s =>
      simp only [hs] at h
      simp only
      by_cases ht : supportedParamTypes.contains s.Type = true
      · rw [if_pos ht] at h ⊢
        obtain ⟨q, s', hmem, hqs, hcont, hlogs⟩ := validateParams_error_unsupported path rest h
        exact ⟨q, s', List.mem_cons_of_mem _ hmem, hqs, hcont, hlogs⟩
      · rw [if_neg ht] at h ⊢
        have hf : supportedParamTypes.contains s.Type = false := by
          rwa [Bool.not_eq_true] at ht
        exact ⟨p, s, List.mem_cons_self _ _, hs, hf, rfl⟩

theorem validateParams_error_of_mem :
    ∀ (path : String) (l : List OASParameter),
      (∀ p ∈ l, p.Schema.isSome = true) → (∃ p ∈ l, unsupportedParam p = true) →
      (validateParams path l).1 = .error .errUnsupported
  | path, [], _, hex => by simp at hex
  | path, p :: rest, hall, hex => by
    rw [validateParams]
    cases hs : p.Schema with
    | none =>
      have := hall p (List.mem_cons_self _ _)
      rw [hs] at this
      cases this
    | some s =>
      simp only
      by_cases ht : supportedParamTypes.contains s.Type = true
      · rw [if_pos ht]
        refine validateParams_error_of_mem path rest
          (fun q hq => hall q (List.mem_cons_of_mem _ hq)) ?_
        obtain ⟨q, hq, hu⟩ := hex
        rcases List.mem_cons.1 hq with rfl | hq
        · rw [unsupportedParam, hs] at hu
          simp only at hu
          rw [ht] at hu
          exact absurd hu (by decide)
        · exact ⟨q, hq, hu⟩
      · rw [if_neg ht]

theorem toTemplateFriendly_of_validate (path parentDir : String) (item : OASPathItem) :
    toTemplateFriendly path parentDir item =
      match validateParams path (appendPostParamsToTopLevel item).Parameters with
      | (.error e, logs) => (.error e, logs)
      | (.ok _, _) =>
        (.ok { Endpoint := path
               DirName := dirNameOf parentDir
               ExportedFuncPrefix := goToTitle (goToLower (namingSeed path))
               PrivateFuncPrefix := goToLower (namingSeed path)
               Parameters := sortParamsByName (appendPostParamsToTopLevel item).Parameters
               SupportsRead := (appendPostParamsToTopLevel item).Get.isSome
               SupportsWrite := (appendPostParamsToTopLevel item).Post.isSome
               SupportsDelete := (appendPostParamsToTopLevel item).Delete.isSome }, []) := rfl

theorem toTemplateFriendly_ok_elim (path parentDir : String) (item : OASPathItem)
    (ctx : templateFriendly) (h : (toTemplateFriendly path parentDir item).1 = .ok ctx) :
    ctx = { Endpoint := path
            DirName := dirNameOf parentDir
            ExportedFuncPrefix := goToTitle (goToLower (namingSeed path))
            PrivateFuncPrefix := goToLower (namingSeed path)
            Parameters := sortParamsByName (appendPostParamsToTopLevel item).Parameters
            SupportsRead := (appendPostParamsToTopLevel item).Get.isSome
            SupportsWrite := (appendPostParamsToTopLevel item).Post.isSome
            SupportsDelete := (appendPostParamsToTopLevel item).Delete.isSome } := by
  rw [toTemplateFriendly_of_validate] at h
  rcases hv : validateParams path (appendPostParamsToTopLevel item).Parameters with ⟨res, logs⟩
  rw [hv] at h
  cases res with
  | error e => simp at h
  | ok u => simp only [Except.ok.injEq] at h; exact h.symm

theorem toTemplateFriendly_error_iff (path parentDir : String) (item : OASPathItem)
    (e : GenError) :
    (toTemplateFriendly path parentDir item).1 = .error e ↔
      (validateParams path (appendPostParamsToTopLevel item).Parameters).1 = .error e := by
  rw [toTemplateFriendly_of_validate]
  rcases hv : validateParams path (appendPostParamsToTopLevel item).Parameters with ⟨res, logs⟩
  cases res with
  | error e' => simp
  | ok u => simp

theorem toTemplateFriendly_error_logs (path parentDir : String) (item : OASPathItem)
    (e : GenError) (h : (toTemplateFriendly path parentDir item).1 = .error e) :
    (toTemplateFriendly path parentDir item).2 =
      (validateParams path (appendPostParamsToTopLevel item).Parameters).2 := by
  rw [toTemplateFriendly_of_validate] at h ⊢
  rcases hv : validateParams path (appendPostParamsToTopLevel item).Parameters with ⟨res, logs⟩
  cases res with
  | error e' => rfl
  | ok u =>
    rw [hv] at h
    simp at h

/-! Remaining helper lemmas: path splitting, suffix decomposition of the
extractor, field-level effect of normalization, brace stripping, and
independence of `parseTemplate` from the flush/close outcomes. -/

theorem splitChars_ne_nil (sep : Char) : ∀ l : List Char, splitChars sep l ≠ []
  | [] => by simp [splitChars]
  | c :: rest => by
    rw [splitChars]
    by_cases h : c = sep
    · simp [h]
    · rw [if_neg h]
      rcases hr : splitChars sep rest with _ | ⟨g, gs⟩ <;> simp

theorem goSplitOnSlash_ne_nil (s : String) : goSplitOnSlash s ≠ [] := by
  rw [goSplitOnSlash]
  intro h
  exact splitChars_ne_nil '/' s.data (List.map_eq_nil_iff.1 h)

theorem addPropParams_append :
    ∀ (props : List (String × Option OASSchema)) (acc : List OASParameter) (seen : List String),
      ∃ suf, (addPropParams acc seen props).1 = acc ++ suf ∧
        ∀ q ∈ suf, q.In = "post" ∧ q.Name ∉ seen
  | [], acc, seen => ⟨[], (List.append_nil acc).symm, by simp⟩
  | (pn, ps) :: rest, acc, seen => by
    rw [addPropParams]
    by_cases hseen : pn ∈ seen
    · rw [if_pos hseen]
      exact addPropParams_append rest acc seen
    · rw [if_neg hseen]
      obtain ⟨suf, heq, hprop⟩ :=
        addPropParams_append rest (acc ++ [postBodyParam pn ps]) (pn :: seen)
      refine ⟨postBodyParam pn ps :: suf, ?_, ?_⟩
      · rw [heq, List.append_assoc]
        rfl
      · intro q hq
        rcases List.mem_cons.1 hq with rfl | hq
        · refine ⟨postBodyParam_In pn ps, ?_⟩
          rw [postBodyParam_Name]
          exact hseen
        · obtain ⟨hin, hnot⟩ := hprop q hq
          exact ⟨hin, fun hmem => hnot (List.mem_cons_of_mem _ hmem)⟩

theorem addContentParams_append :
    ∀ (content : List (String × OASMediaTypeObject)) (acc : List OASParameter)
      (seen : List String),
      ∃ suf, (addContentParams acc seen content).1 = acc ++ suf ∧
        ∀ q ∈ suf, q.In = "post" ∧ q.Name ∉ seen
  | [], acc, seen => ⟨[], (List.append_nil acc).symm, by simp⟩
  | (mt, ⟨none⟩) :: rest, acc, seen => by
    rw [addContentParams]
    exact addContentParams_append rest acc seen
  | (mt, ⟨some schema⟩) :: rest, acc, seen => by
    rw [addContentParams]
    simp only
    cases hp : schema.Properties with
    | none => exact addContentParams_append rest acc seen
    | some props =>
      simp only
      obtain ⟨suf₁, heq₁, hprop₁⟩ := addPropParams_append props acc seen
      obtain ⟨suf₂, heq₂, hprop₂⟩ := addContentParams_append rest
        (addPropParams acc seen props).1 (addPropParams acc seen props).2
      refine ⟨suf₁ ++ suf₂, ?_, ?_⟩
      · rw [heq₂, heq₁, List.append_assoc]
      · intro q hq
        rcases List.mem_append.1 hq with hq | hq
        · exact hprop₁ q hq
        · obtain ⟨hin, hnot⟩ := hprop₂ q hq
          exact ⟨hin, fun hmem => hnot (addPropParams_seen_mono props acc seen _ hmem)⟩

theorem normalizeParam_fields (p : OASParameter) :
    (normalizeParam p).Name = p.Name ∧ (normalizeParam p).Description = p.Description ∧
    (normalizeParam p).In = p.In ∧
    (p.Schema = none → (normalizeParam p).Schema = none) ∧
    (∀ s, p.Schema = some s → ∃ s', (normalizeParam p).Schema = some s' ∧
      s'.Type = s.Type ∧ s'.Description = s.Description ∧ s'.Properties = s.Properties ∧
      (s.DisplayAttrs = none → s'.DisplayAttrs = some {}) ∧
      ∀ a, s.DisplayAttrs = some a → s'.DisplayAttrs = some a) := by
  obtain ⟨n, d, i, sch⟩ := p
  cases sch with
  | none =>
    exact ⟨rfl, rfl, rfl, fun _ => rfl, fun s hs => Option.noConfusion hs⟩
  | some s0 =>
    cases s0 with
    | mk t de pr a =>
      cases a with
      | none =>
        refine ⟨rfl, rfl, rfl, fun h => Option.noConfusion h, ?_⟩
        intro s hs
        injection hs with hh
        subst hh
        exact ⟨OASSchema.mk t de pr (some {}), rfl, rfl, rfl, rfl, fun _ => rfl,
          fun a ha => Option.noConfusion ha⟩
      | some att =>
        refine ⟨rfl, rfl, rfl, fun h => Option.noConfusion h, ?_⟩
        intro s hs
        injection hs with hh
        subst hh
        refine ⟨OASSchema.mk t de pr (some att), rfl, rfl, rfl, rfl,
          fun h => Option.noConfusion h, ?_⟩
        intro a ha
        injection ha with hh2
        rw [hh2]
        rfl

theorem stripCurly_append (a b : String) :
    stripCurlyBraces (a ++ b) = stripCurlyBraces a ++ stripCurlyBraces b := by
  cases a with
  | mk la =>
    cases b with
    | mk lb =>
      show String.mk ((la ++ lb).filter fun c => !(c == '{' || c == '}')) = _
      rw [List.filter_append]
      rfl

theorem stripCurly_no_braces (s : String) :
    (stripCurlyBraces s).data.filter (fun c => c == '{' || c == '}') = [] := by
  rw [stripCurlyBraces]
  rw [List.filter_eq_nil_iff]
  intro a ha
  have h2 := List.of_mem_filter ha
  rw [Bool.not_eq_true'] at h2
  rw [h2]
  exact Bool.false_ne_true

theorem parseTemplate_flush_close_indep (me cre pe : Option String)
    (ex : templateFriendly → Except String String) (f1 c1 f2 c2 : Option String)
    (pa pd : String) (item : OASPathItem) :
    parseTemplate ⟨me, cre, pe, ex, f1, c1⟩ pa pd item =
      parseTemplate ⟨me, cre, pe, ex, f2, c2⟩ pa pd item := rfl

/-! The claim theorems. -/

/-- Claim C1, counterexample: the claim says an unsupported parameter type
makes the invocation fail "before any file is touched" with "no output
file written"; on the concrete endpoint `objItem` (one parameter of type
"object") with every external operation succeeding, `generateFile` does
return the sentinel, but its event trace shows the parent directory was
made and the output file was created (empty) before validation ran. -/
theorem c1_sentinel_counterexample :
    (generateFile envOk "a/b.go" "/a/b" objItem).1 = .error .errUnsupported ∧
    FileEvent.create "a/b.go" ∈ (generateFile envOk "a/b.go" "/a/b" objItem).2.1 ∧
    (generateFile envOk "a/b.go" "/a/b" objItem).2.1 =
      [FileEvent.mkdir "a", FileEvent.create "a/b.go"] :=
  ⟨rfl, by decide, rfl⟩

/-- Claim C1, amended: if directory creation, file creation and template
parsing succeed, every post-extraction parameter has a present schema,
and some parameter's type is unsupported, then the invocation returns the
`ErrUnsupported` sentinel, no content is ever written to the file, but
the output file itself is created (empty) before validation. -/
theorem c1_sentinel_amended (env : IOEnv) (pathToFile path : String) (item : OASPathItem)
    (hmk : env.mkdirErr = none) (hcr : env.createErr = none) (hpt : env.parseErr = none)
    (hpresent : ∀ p ∈ (appendPostParamsToTopLevel item).Parameters, p.Schema.isSome = true)
    (hbad : ∃ p ∈ (appendPostParamsToTopLevel item).Parameters, unsupportedParam p = true) :
    (generateFile env pathToFile path item).1 = .error .errUnsupported ∧
    FileEvent.create pathToFile ∈ (generateFile env pathToFile path item).2.1 ∧
    ∀ (q content : String),
      FileEvent.write q content ∉ (generateFile env pathToFile path item).2.1 := by
  obtain ⟨me, cre, pe, ex, fl, cl⟩ := env
  simp only at hmk hcr hpt
  subst hmk
  subst hcr
  subst hpt
  have hval := validateParams_error_of_mem path _ hpresent hbad
  have hfr := (toTemplateFriendly_error_iff path (parentDirOf pathToFile) item
    GenError.errUnsupported).2 hval
  rcases ht : toTemplateFriendly path (parentDirOf pathToFile) item with ⟨res, logs⟩
  rw [ht] at hfr
  simp only at hfr
  subst hfr
  have hgen : generateFile ⟨none, none, none, ex, fl, cl⟩ pathToFile path item =
      (.error .errUnsupported,
        [FileEvent.mkdir (parentDirOf pathToFile), FileEvent.create pathToFile] ++
          (runDefers ⟨none, none, none, ex, fl, cl⟩ pathToFile none).1,
        logs ++ (runDefers ⟨none, none, none, ex, fl, cl⟩ pathToFile none).2) := by
    rw [generateFile]
    simp only [parseTemplate, ht]
  rw [hgen]
  refine ⟨rfl, by simp, ?_⟩
  intro q c hmem
  rw [runDefers] at hmem
  cases fl with
  | some m => simp at hmem
  | none => simp at hmem

/-- Claim C1, witness: the amended theorem applied to `objItem` in the
all-succeeding environment. -/
theorem c1_sentinel_amended_witness :
    (generateFile envOk "docs/d.md" "/a/b" objItem).1 = .error .errUnsupported ∧
    FileEvent.create "docs/d.md" ∈ (generateFile envOk "docs/d.md" "/a/b" objItem).2.1 ∧
    ∀ (q content : String),
      FileEvent.write q content ∉ (generateFile envOk "docs/d.md" "/a/b" objItem).2.1 :=
  c1_sentinel_amended envOk "docs/d.md" "/a/b" objItem rfl rfl rfl (by decide) (by decide)

/-- Claim C2 (code bug): the claim says that after extraction every
top-level parameter has a present schema and present display attributes.
On `nilSchemaItem` the merge loop runs (the POST body's property "b" is
appended, fully normalized), yet the pre-existing parameter "a" still has
an absent schema afterwards: Go's `range` yields a copy of each slice
element, so `param.Schema = &framework.OASSchema{}` mutates only the
copy and the normalization written in the source has no effect. -/
theorem c2_schema_normalization_bug_eval :
    ((appendPostParamsToTopLevel nilSchemaItem).Parameters.map fun p => p.Name) = ["a", "b"] ∧
    ((appendPostParamsToTopLevel nilSchemaItem).Parameters.map fun p => p.Schema.isSome) =
      [false, true] ∧
    nilSchemaItem.Post.isSome = true :=
  ⟨rfl, rfl, rfl⟩

/-- Claim C3, counterexample: the claim's "if and only if" fails on
`panicItem`, whose first parameter has an absent schema and whose second
has the unsupported type "object": a parameter with an unsupported type
exists, yet the pipeline dereferences the absent schema first and crashes
(modelled as `nilSchemaPanic`) instead of raising the sentinel. -/
theorem c3_iff_counterexample :
    (∃ p ∈ (appendPostParamsToTopLevel panicItem).Parameters, unsupportedParam p = true) ∧
    (toTemplateFriendly "/t" "g/d" panicItem).1 = .error .nilSchemaPanic ∧
    (toTemplateFriendly "/t" "g/d" panicItem).1 ≠ .error .errUnsupported := by
  refine ⟨by decide, rfl, fun h => ?_⟩
  have h0 : (toTemplateFriendly "/t" "g/d" panicItem).1 = .error .nilSchemaPanic := rfl
  rw [h0] at h
  injection h with h'
  exact GenError.noConfusion h'

/-- Claim C3, amended: provided every post-extraction parameter has a
present schema, the pipeline returns the `ErrUnsupported` sentinel iff
some parameter in the post-extraction top-level list has a type outside
the supported set; and on that failure the emitted diagnostic line (the
sentinel error itself carries no details) identifies the endpoint path
and the offending parameter's type and name. -/
theorem c3_unsupported_iff_amended (path parentDir : String) (item : OASPathItem)
    (hpresent : ∀ p ∈ (appendPostParamsToTopLevel item).Parameters, p.Schema.isSome = true) :
    ((toTemplateFriendly path parentDir item).1 = .error .errUnsupported ↔
      ∃ p ∈ (appendPostParamsToTopLevel item).Parameters, unsupportedParam p = true) ∧
    ((toTemplateFriendly path parentDir item).1 = .error .errUnsupported →
      ∃ p s, p ∈ (appendPostParamsToTopLevel item).Parameters ∧ p.Schema = some s ∧
        supportedParamTypes.contains s.Type = false ∧
        (toTemplateFriendly path parentDir item).2 = [unsupportedMsg path s.Type p.Name]) := by
  constructor
  · rw [toTemplateFriendly_error_iff]
    constructor
    · intro h
      obtain ⟨p, s, hmem, hps, hcont, _⟩ := validateParams_error_unsupported path _ h
      refine ⟨p, hmem, ?_⟩
      rw [unsupportedParam, hps]
      simp only
      rw [hcont]
      rfl
    · exact validateParams_error_of_mem path _ hpresent
  · intro h
    have hv := (toTemplateFriendly_error_iff path parentDir item .errUnsupported).1 h
    obtain ⟨p, s, hmem, hps, hcont, hlogs⟩ := validateParams_error_unsupported path _ hv
    refine ⟨p, s, hmem, hps, hcont, ?_⟩
    rw [toTemplateFriendly_error_logs path parentDir item .errUnsupported h]
    exact hlogs

/-- Claim C3, witness: the amended theorem applied to `objItem`, whose
single parameter has a present schema of type "object". -/
theorem c3_unsupported_iff_amended_witness :
    ((toTemplateFriendly "/t" "g/d" objItem).1 = .error .errUnsupported ↔
      ∃ p ∈ (appendPostParamsToTopLevel objItem).Parameters, unsupportedParam p = true) ∧
    ((toTemplateFriendly "/t" "g/d" objItem).1 = .error .errUnsupported →
      ∃ p s, p ∈ (appendPostParamsToTopLevel objItem).Parameters ∧ p.Schema = some s ∧
        supportedParamTypes.contains s.Type = false ∧
        (toTemplateFriendly "/t" "g/d" objItem).2 = [unsupportedMsg "/t" s.Type p.Name]) :=
  c3_unsupported_iff_amended "/t" "g/d" objItem (by decide)

/-- Claim C4: parameter extraction is idempotent — applying
`appendPostParamsToTopLevel` twice to any endpoint descriptor yields
exactly the same descriptor as applying it once; no duplicates are added
and no further mutation occurs on the second run. -/
theorem c4_extraction_idempotent (item : OASPathItem) :
    appendPostParamsToTopLevel (appendPostParamsToTopLevel item) =
      appendPostParamsToTopLevel item := by
  obtain ⟨params, g, p, d⟩ := item
  cases p with
  | none => rfl
  | some post =>
    obtain ⟨rbf⟩ := post
    cases rbf with
    | none => rfl
    | some rb =>
      obtain ⟨desc, cf⟩ := rb
      cases cf with
      | none => rfl
      | some content =>
        have hfix : ∀ q ∈ (addContentParams (params.map normalizeParam)
            ((params.map normalizeParam).map OASParameter.Name) content).1,
            normalizeParam q = q := by
          intro q hq
          rcases addContentParams_acc_mem content _ _ q hq with hacc | h
          · rcases List.mem_map.1 hacc with ⟨q', hq', rfl⟩
            exact normalizeParam_idem q'
          · exact h
        have hmap := map_normalizeParam_fix _ hfix
        have hcov : ∀ n ∈ contentPropNames content,
            n ∈ (addContentParams (params.map normalizeParam)
              ((params.map normalizeParam).map OASParameter.Name)
                content).1.map OASParameter.Name := by
          intro n hn
          refine addContentParams_seen_sub content _ _ (fun m hm => hm) n ?_
          exact addContentParams_prop_seen content _ _ n hn
        have hnoop := addContentParams_noop content
          ((addContentParams (params.map normalizeParam)
            ((params.map normalizeParam).map OASParameter.Name) content).1)
          ((addContentParams (params.map normalizeParam)
            ((params.map normalizeParam).map OASParameter.Name)
              content).1.map OASParameter.Name) hcov
        have key : (addContentParams
            ((addContentParams (params.map normalizeParam)
              ((params.map normalizeParam).map OASParameter.Name) content).1.map normalizeParam)
            (((addContentParams (params.map normalizeParam)
              ((params.map normalizeParam).map OASParameter.Name)
                content).1.map normalizeParam).map OASParameter.Name)
            content).1 =
            (addContentParams (params.map normalizeParam)
              ((params.map normalizeParam).map OASParameter.Name) content).1 := by
          rw [hmap, hnoop]
        exact congrArg (fun l => OASPathItem.mk l g (some ⟨some ⟨desc, some content⟩⟩) d) key

/-- Claim C5, counterexample: the claim says that when a name exists both
at the top level and in the POST body, the top-level parameter's metadata
survives unchanged.  On `dupItem` (top-level "x" with present schema but
absent display attributes, POST body property "x") no second "x" is
added, but the top-level parameter is not unchanged: extraction fills its
absent display attributes with an empty structure, observable as the
`DisplayAttrs` presence flipping from absent to present. -/
theorem c5_precedence_counterexample :
    ((appendPostParamsToTopLevel dupItem).Parameters.map fun p => p.Name) = ["x"] ∧
    ((appendPostParamsToTopLevel dupItem).Parameters.map fun p =>
      p.Schema.map fun s => s.DisplayAttrs.isSome) = [some true] ∧
    (dupItem.Parameters.map fun p =>
      p.Schema.map fun s => s.DisplayAttrs.isSome) = [some false] ∧
    (appendPostParamsToTopLevel dupItem).Parameters ≠ dupItem.Parameters := by
  refine ⟨rfl, rfl, rfl, fun h => ?_⟩
  have h2 := congrArg
    (List.map fun p : OASParameter => p.Schema.map fun s => s.DisplayAttrs.isSome) h
  exact absurd h2 (by decide)

/-- Claim C5, amended: when the POST body content is present, extraction
produces the normalized top-level parameters followed by an appended
suffix; every appended parameter has source location `"post"` and a name
absent from the top level; and each top-level parameter keeps its name,
description, source location, and its schema's type, description and
properties — the only change is that an absent `DisplayAttrs` on a
present schema is replaced by an empty one (an absent schema stays
absent, and present display attributes survive unchanged). -/
theorem c5_precedence_amended (item : OASPathItem) (post : OASOperation) (rb : OASRequestBody)
    (content : List (String × OASMediaTypeObject))
    (hpost : item.Post = some post) (hrb : post.RequestBody = some rb)
    (hc : rb.Content = some content) :
    ∃ appended : List OASParameter,
      (appendPostParamsToTopLevel item).Parameters =
        item.Parameters.map normalizeParam ++ appended ∧
      (∀ q ∈ appended, q.In = "post" ∧ q.Name ∉ item.Parameters.map OASParameter.Name) ∧
      ∀ p ∈ item.Parameters,
        (normalizeParam p).Name = p.Name ∧ (normalizeParam p).Description = p.Description ∧
        (normalizeParam p).In = p.In ∧
        (p.Schema = none → (normalizeParam p).Schema = none) ∧
        (∀ s, p.Schema = some s → ∃ s', (normalizeParam p).Schema = some s' ∧
          s'.Type = s.Type ∧ s'.Description = s.Description ∧ s'.Properties = s.Properties ∧
          (s.DisplayAttrs = none → s'.DisplayAttrs = some {}) ∧
          ∀ a, s.DisplayAttrs = some a → s'.DisplayAttrs = some a) := by
  rw [appendPost_params_content item post rb content hpost hrb hc]
  obtain ⟨suf, heq, hprop⟩ := addContentParams_append content (item.Parameters.map normalizeParam)
    ((item.Parameters.map normalizeParam).map OASParameter.Name)
  refine ⟨suf, heq, ?_, fun p _ => normalizeParam_fields p⟩
  intro q hq
  obtain ⟨hin, hnot⟩ := hprop q hq
  refine ⟨hin, ?_⟩
  rw [← names_map_normalizeParam]
  exact hnot

/-- Claim C5, witness: the amended theorem applied to `dupItem`. -/
theorem c5_precedence_amended_witness :
    ∃ appended : List OASParameter,
      (appendPostParamsToTopLevel dupItem).Parameters =
        dupItem.Parameters.map normalizeParam ++ appended ∧
      (∀ q ∈ appended, q.In = "post" ∧ q.Name ∉ dupItem.Parameters.map OASParameter.Name) ∧
      ∀ p ∈ dupItem.Parameters,
        (normalizeParam p).Name = p.Name ∧ (normalizeParam p).Description = p.Description ∧
        (normalizeParam p).In = p.In ∧
        (p.Schema = none → (normalizeParam p).Schema = none) ∧
        (∀ s, p.Schema = some s → ∃ s', (normalizeParam p).Schema = some s' ∧
          s'.Type = s.Type ∧ s'.Description = s.Description ∧ s'.Properties = s.Properties ∧
          (s.DisplayAttrs = none → s'.DisplayAttrs = some {}) ∧
          ∀ a, s.DisplayAttrs = some a → s'.DisplayAttrs = some a) :=
  c5_precedence_amended dupItem dupPost dupRB dupContent rfl rfl rfl

/-- Claim C6: for two endpoint descriptors with the same POST operation
whose parameter collections are permutations of each other (with distinct
names, as parameters originate from a map keyed by name), whenever the
context builder succeeds on both, it places the identical parameter
sequence in both rendering contexts, and that sequence is sorted strictly
ascending by name (lexicographically). -/
theorem c6_sort_deterministic (path parentDir : String) (item₁ item₂ : OASPathItem)
    (hpost : item₁.Post = item₂.Post)
    (hperm : item₁.Parameters.Perm item₂.Parameters)
    (hnodup : (item₁.Parameters.map OASParameter.Name).Nodup)
    (ctx₁ ctx₂ : templateFriendly)
    (h₁ : (toTemplateFriendly path parentDir item₁).1 = .ok ctx₁)
    (h₂ : (toTemplateFriendly path parentDir item₂).1 = .ok ctx₂) :
    ctx₁.Parameters = ctx₂.Parameters ∧
      List.Sorted (fun a b : OASParameter => a.Name < b.Name) ctx₁.Parameters := by
  have e₁ := toTemplateFriendly_ok_elim path parentDir item₁ ctx₁ h₁
  have e₂ := toTemplateFriendly_ok_elim path parentDir item₂ ctx₂ h₂
  subst e₁
  subst e₂
  have hpermx := appendPost_params_perm item₁ item₂ hpost hperm
  have hnodupx := appendPost_params_nodup item₁ hnodup
  constructor
  · exact sortParams_eq_of_perm _ _ hpermx hnodupx
  · exact strict_sorted_sortParamsByName _ hnodupx

/-- Claim C6, witness: the theorem applied to `getItemBA`/`getItemAB`,
two orderings of the same two-parameter collection, both of which produce
the context `getCtx` with parameters sorted [a, b]. -/
theorem c6_sort_deterministic_witness :
    getCtx.Parameters = getCtx.Parameters ∧
      List.Sorted (fun a b : OASParameter => a.Name < b.Name) getCtx.Parameters :=
  c6_sort_deterministic "/x/y" "m/n" getItemBA getItemAB rfl
    (List.Perm.swap paramA paramB []) (by decide) getCtx getCtx rfl rfl

/-- Claim C7: the naming seed equals the spec's description (last path
segment, or the first when only one exists, braces stripped, underscores
removed); on every successful context the exported prefix is the
title-cased lowering of the seed and the private prefix its lowering; and
in particular path `"/transform/{name}"` yields seed `"name"`, exported
prefix `"Name"` and private prefix `"name"`. -/
theorem c7_naming :
    (∀ path, namingSeed path = namingSeedSpec path) ∧
    (∀ (path parentDir : String) (item : OASPathItem) (ctx : templateFriendly),
      (toTemplateFriendly path parentDir item).1 = .ok ctx →
      ctx.ExportedFuncPrefix = goToTitle (goToLower (namingSeed path)) ∧
        ctx.PrivateFuncPrefix = goToLower (namingSeed path)) ∧
    namingSeed "/transform/{name}" = "name" ∧
    goToTitle (goToLower (namingSeed "/transform/{name}")) = "Name" ∧
    goToLower (namingSeed "/transform/{name}") = "name" := by
  refine ⟨?_, ?_, rfl, rfl, rfl⟩
  · intro path
    rw [namingSeed, namingSeedSpec]
    rcases hl : goSplitOnSlash path with _ | ⟨x, xs⟩
    · exact absurd hl (goSplitOnSlash_ne_nil path)
    · cases xs with
      | nil => simp
      | cons y ys => simp
  · intro path parentDir item ctx h
    have e := toTemplateFriendly_ok_elim path parentDir item ctx h
    subst e
    exact ⟨rfl, rfl⟩

/-- Claim C7, witness: the prefix part of the theorem applied to
`getItemBA` at path `"/transform/{name}"`, whose context `nameCtx` has
exported prefix `"Name"` and private prefix `"name"`. -/
theorem c7_naming_witness :
    nameCtx.ExportedFuncPrefix = goToTitle (goToLower (namingSeed "/transform/{name}")) ∧
      nameCtx.PrivateFuncPrefix = goToLower (namingSeed "/transform/{name}") :=
  c7_naming.2.1 "/transform/{name}" "m/n" getItemBA nameCtx rfl

/-- Claim C8: the documentation output path is the (brace-stripped) fixed
prefix followed by the flattened name obtained by dropping a leading
slash, replacing slashes with dashes and stripping braces; endpoint
`"/transform/transformation/{name}"` flattens to
`"transform-transformation-name"`; the code artifact's path for the same
endpoint has its brace markers stripped; and no generated path (code or
doc) contains a brace character. -/
theorem c8_path_mapping :
    (∀ home ftStr path, generateDocPath home ftStr path =
      stripCurlyBraces (home ++ "/website/docs/generated/" ++ ftStr) ++ "/" ++
        specFlattenedDocName path ++ ".md") ∧
    specFlattenedDocName "/transform/transformation/{name}" = "transform-transformation-name" ∧
    (∀ home ftStr, generateCodePath home ftStr "/transform/transformation/{name}" =
      stripCurlyBraces (home ++ "/generated/" ++ ftStr) ++ "/transform/transformation/name.go") ∧
    (∀ home ftStr path,
      ((generateCodePath home ftStr path).data.filter fun c => c == '{' || c == '}') = [] ∧
      ((generateDocPath home ftStr path).data.filter fun c => c == '{' || c == '}') = []) := by
  refine ⟨?_, rfl, ?_, ?_⟩
  · intro home ftStr path
    rw [generateDocPath, stripCurly_append, stripCurly_append, stripCurly_append,
      specFlattenedDocName]
    rfl
  · intro home ftStr
    rw [generateCodePath, stripCurly_append, stripCurly_append, String.append_assoc]
    rfl
  · intro home ftStr path
    exact ⟨stripCurly_no_braces _, stripCurly_no_braces _⟩

/-- Claim C9: whenever the context builder succeeds, the capability flags
are exact presence checks of the operation descriptors: read iff GET
exists, write iff POST exists, delete iff DELETE exists. -/
theorem c9_capability_flags (path parentDir : String) (item : OASPathItem)
    (ctx : templateFriendly) (h : (toTemplateFriendly path parentDir item).1 = .ok ctx) :
    ctx.SupportsRead = item.Get.isSome ∧ ctx.SupportsWrite = item.Post.isSome ∧
      ctx.SupportsDelete = item.Delete.isSome := by
  have e := toTemplateFriendly_ok_elim path parentDir item ctx h
  subst e
  exact ⟨congrArg Option.isSome (appendPost_Get item),
    congrArg Option.isSome (appendPost_Post item),
    congrArg Option.isSome (appendPost_Delete item)⟩

/-- Claim C9, witness: the theorem applied to the GET-only endpoint
`getItemBA`, whose context `getCtx` has read=true, write=false,
delete=false. -/
theorem c9_capability_flags_witness :
    getCtx.SupportsRead = getItemBA.Get.isSome ∧
      getCtx.SupportsWrite = getItemBA.Post.isSome ∧
      getCtx.SupportsDelete = getItemBA.Delete.isSome :=
  c9_capability_flags "/x/y" "m/n" getItemBA getCtx rfl

/-- Claim C10: the returned outcome of `generateFile` never depends on
the flush or close outcomes (it is determined solely by directory
creation, file creation and template parsing/execution), and a failing
flush or close is reported to the diagnostic sink whenever those steps
run (i.e. whenever directory and file creation succeeded). -/
theorem c10_flush_close_diagnostic_only :
    (∀ (env : IOEnv) (fe ce : Option String) (pathToFile path : String) (item : OASPathItem),
      (generateFile { env with flushErr := fe, closeErr := ce } pathToFile path item).1 =
        (generateFile env pathToFile path item).1) ∧
    (∀ (pe : Option String) (ex : templateFriendly → Except String String)
      (ce : Option String) (m : String) (pathToFile path : String) (item : OASPathItem),
      m ∈ (generateFile ⟨none, none, pe, ex, some m, ce⟩ pathToFile path item).2.2) ∧
    (∀ (pe : Option String) (ex : templateFriendly → Except String String)
      (fe : Option String) (m : String) (pathToFile path : String) (item : OASPathItem),
      m ∈ (generateFile ⟨none, none, pe, ex, fe, some m⟩ pathToFile path item).2.2) := by
  refine ⟨?_, ?_, ?_⟩
  · intro env fe ce pathToFile path item
    obtain ⟨me, cre, pe, ex, fl, cl⟩ := env
    cases me with
    | some e => rfl
    | none =>
      cases cre with
      | some e => rfl
      | none =>
        rw [generateFile, generateFile]
        simp only
        rw [parseTemplate_flush_close_indep none none pe ex fe ce fl cl]
        rcases hp : parseTemplate ⟨none, none, pe, ex, fl, cl⟩ path
          (parentDirOf pathToFile) item with ⟨res, logs⟩
        cases res with
        | error e => rfl
        | ok rendered => rfl
  · intro pe ex ce m pathToFile path item
    rw [generateFile]
    simp only
    rcases hp : parseTemplate ⟨none, none, pe, ex, some m, ce⟩ path
      (parentDirOf pathToFile) item with ⟨res, logs⟩
    cases res with
    | error e => simp [runDefers]
    | ok rendered => simp [runDefers]
  · intro pe ex fe m pathToFile path item
    rw [generateFile]
    simp only
    rcases hp : parseTemplate ⟨none, none, pe, ex, fe, some m⟩ path
      (parentDirOf pathToFile) item with ⟨res, logs⟩
    cases res with
    | error e =>
      cases fe with
      | some m2 => simp [runDefers]
      | none => simp [runDefers]
    | ok rendered =>
      cases fe with
      | some m2 => simp [runDefers]
      | none => simp [runDefers]
